import Mathlib

/-!
Verification of `monai/metrics/surface_dice.py` (Normalized Surface Distance).

The source file defines `compute_surface_dice` (validation, per-(sample, class)
boundary comparison, NSD ratio with a NaN policy) and the cumulative metric
class `SurfaceDiceMetric` (`_compute_tensor`, `aggregate`).  Collaborators that
live outside this file (`get_mask_edges`, `get_surface_distance`,
`prepare_spacing`, `ignore_background`, `do_metric_reduction`, the cumulative
buffer base class) are modelled from the specification's contracts, marked
`Modelled from the spec:` below.

Number model: tensor elements and thresholds are rationals (the values the
checks accept are small integers, exactly representable in floating point).
A nearest-boundary distance is an `Option ℚ` where `none` stands for the
infinite distance produced when the target boundary set is empty.  An NSD
entry is an `Option ℚ` where `none` stands for NaN.
-/

namespace SurfaceDice

/-- A 2-D image slice `y[b, c]`: height, width, and the pixel values
(out-of-range indices are irrelevant; all definitions read in-range only). -/
structure Img where
  H : ℕ
  W : ℕ
  val : ℕ → ℕ → ℚ

/-- A batch-first one-hot tensor `[B, C, H, W]` as in the source's `y_pred`/`y`.
Torch tensors are rectangular by construction, so the shape is carried as four
explicit dimensions; `val` gives the element at an index (in-range reads only). -/
structure Tensor4 where
  B : ℕ
  C : ℕ
  H : ℕ
  W : ℕ
  val : ℕ → ℕ → ℕ → ℕ → ℚ

/-- The shape tuple torch reports for a 4-D tensor (`t.shape`). -/
def Tensor4.shape (t : Tensor4) : ℕ × ℕ × ℕ × ℕ := (t.B, t.C, t.H, t.W)

/-- Truncation of a rational toward zero, the mathematical content of casting a
float to an integer value. -/
def ratTrunc (q : ℚ) : ℤ := if 0 ≤ q then ⌊q⌋ else ⌈q⌉

/-- Models `tensor.byte()` elementwise (cast to `uint8`).  Torch leaves the cast
undefined when the truncated value falls outside `[0, 255]`; on that domain the
cast is exactly `ratTrunc`, and we extend by the wrap-around `% 256` only to
stay total (theorems about the cast carry the in-range hypothesis `byteSafe`). -/
def byteOf (q : ℚ) : ℤ := ratTrunc q % 256

/-- The domain on which torch defines the float→`uint8` cast used at line 226. -/
def Tensor4.byteSafe (t : Tensor4) : Prop :=
  ∀ b < t.B, ∀ c < t.C, ∀ i < t.H, ∀ j < t.W,
    0 ≤ ratTrunc (t.val b c i j) ∧ ratTrunc (t.val b c i j) ≤ 255

/-- Line 226's check `torch.all(t.byte() == t)`: every element survives the
byte cast unchanged. -/
def Tensor4.binarized (t : Tensor4) : Prop :=
  ∀ b < t.B, ∀ c < t.C, ∀ i < t.H, ∀ j < t.W,
    (byteOf (t.val b c i j) : ℚ) = t.val b c i j

/-- Every element equals its own truncation to an integer value (the spec's
wording of the binarization requirement). -/
def Tensor4.integral (t : Tensor4) : Prop :=
  ∀ b < t.B, ∀ c < t.C, ∀ i < t.H, ∀ j < t.W,
    ((ratTrunc (t.val b c i j) : ℚ) = t.val b c i j)

/-- Line 228's check `torch.any(t > 1)`: some element exceeds one. -/
def Tensor4.hasGtOne (t : Tensor4) : Prop :=
  ∃ b < t.B, ∃ c < t.C, ∃ i < t.H, ∃ j < t.W, 1 < t.val b c i j

/-- Modelled from the spec: the Background Filter collaborator
(`ignore_background` from `monai.metrics.utils`, not under src/) — "drops the
first class channel from both predicted and reference tensors", i.e. `t[:, 1:]`. -/
def ignore_background (t : Tensor4) : Tensor4 :=
  ⟨t.B, t.C - 1, t.H, t.W, fun b c i j => t.val b (c + 1) i j⟩

/-- The slice `t[b, c]` handed to the Edge Extractor. -/
def Tensor4.img (t : Tensor4) (b c : ℕ) : Img := ⟨t.H, t.W, fun i j => t.val b c i j⟩

/-- Concatenation of two batches along the batch axis (`torch.cat` dim 0);
meaningful when the non-batch dimensions agree. -/
def Tensor4.bcat (t u : Tensor4) : Tensor4 :=
  ⟨t.B + u.B, t.C, t.H, t.W, fun b c i j =>
    if b < t.B then t.val b c i j else u.val (b - t.B) c i j⟩

/-- Foreground test for pixel `(i, j)` of a mask: in range and nonzero. -/
def Img.fgN (img : Img) (i j : ℕ) : Bool :=
  decide (i < img.H) && decide (j < img.W) && decide (img.val i j ≠ 0)

/-- Modelled from the spec: the Edge Extractor collaborator (`get_mask_edges`
from `monai.metrics.utils`, not under src/) — a boundary/edge pixel is a
foreground pixel adjacent to background ("pixels of a binary mask adjacent to
background, defining the mask's outline"); pixels beyond the image border count
as background. -/
def Img.isEdge (img : Img) (i j : ℕ) : Bool :=
  img.fgN i j &&
    (decide (i = 0) || !(img.fgN (i - 1) j) || !(img.fgN (i + 1) j) ||
     decide (j = 0) || !(img.fgN i (j - 1)) || !(img.fgN i (j + 1)))

/-- The Boundary Pixel Set of a mask, in row-major order. -/
def Img.edges (img : Img) : List (ℕ × ℕ) :=
  ((List.range img.H).map (fun i =>
    (List.range img.W).filterMap (fun j =>
      if img.isEdge i j then some (i, j) else none))).flatten

/-- The mask has some foreground pixel. -/
def Img.hasFg (img : Img) : Prop :=
  ∃ i < img.H, ∃ j < img.W, img.val i j ≠ 0

instance (t : Tensor4) : Decidable t.byteSafe := by
  unfold Tensor4.byteSafe; infer_instance

instance (t : Tensor4) : Decidable t.binarized := by
  unfold Tensor4.binarized; infer_instance

instance (t : Tensor4) : Decidable t.integral := by
  unfold Tensor4.integral; infer_instance

instance (t : Tensor4) : Decidable t.hasGtOne := by
  unfold Tensor4.hasGtOne; infer_instance

instance (img : Img) : Decidable img.hasFg := by
  unfold Img.hasFg; infer_instance

/-- Is a directional distance within tolerance `τ`?  `none` is the infinite
distance against an empty target boundary ("no pixel within tolerance"). -/
def distLE (d : Option ℚ) (τ : ℚ) : Bool :=
  match d with
  | none => false
  | some x => decide (x ≤ τ)

/-- The Surface Distance Oracle collaborator (`get_surface_distance` from
`monai.metrics.utils`, not under src/), abstracted by its spec contract:
`dists spacing source target` returns one nearest-distance per source pixel
(`length_eq`), and distances against an empty target set are infinite
(`empty_target`). -/
structure SurfOracle where
  dists : List ℚ → List (ℕ × ℕ) → List (ℕ × ℕ) → List (Option ℚ)
  length_eq : ∀ sp s t, (dists sp s t).length = s.length
  empty_target : ∀ sp s d, d ∈ dists sp s [] → d = none

/-- Taxicab distance between two pixels (spacing-independent, as in the source
tree's `distance_transform_cdt` path). -/
def taxiDist (p q : ℕ × ℕ) : ℚ :=
  ((((p.1 : ℤ) - q.1).natAbs + ((p.2 : ℤ) - q.2).natAbs : ℕ) : ℚ)

/-- Nearest distance from `p` to a target list; `none` when the target is empty. -/
def nearestDist (p : ℕ × ℕ) : List (ℕ × ℕ) → Option ℚ
  | [] => none
  | q :: t =>
    match nearestDist p t with
    | none => some (taxiDist p q)
    | some a => some (min (taxiDist p q) a)

/-- Modelled from the spec: a concrete Surface Distance Oracle instance
(taxicab metric) used to evaluate the development on concrete inputs. -/
def taxiOracle : SurfOracle where
  dists := fun _ s t => s.map (fun p => nearestDist p t)
  length_eq := by intro sp s t; simp
  empty_target := by
    intro sp s d hd
    rcases List.mem_map.mp hd with ⟨p, _, hp⟩
    simpa [nearestDist] using hp.symm

/-- Lines 266–275, the Boundary-Correctness Evaluator: `boundary_complete` is
the total count of directional distances, `boundary_correct` the count within
tolerance, the entry is NaN (`none`) when `boundary_complete == 0` and the
ratio otherwise. -/
def nsd_eval (distances_pred_gt distances_gt_pred : List (Option ℚ)) (τ : ℚ) : Option ℚ :=
  let boundary_complete := distances_pred_gt.length + distances_gt_pred.length
  let boundary_correct :=
    distances_pred_gt.countP (fun d => distLE d τ) +
      distances_gt_pred.countP (fun d => distLE d τ)
  if boundary_complete = 0 then none
  else some ((boundary_correct : ℚ) / (boundary_complete : ℚ))

/-- The body of the loop at lines 252–275 for one `(b, c)` pair: extract both
edge sets, get both directional distance arrays, evaluate the ratio. -/
def nsd_bc (O : SurfOracle) (sp : List ℚ) (τ : ℚ) (pred gt : Img) : Option ℚ :=
  nsd_eval (O.dists sp pred.edges gt.edges) (O.dists sp gt.edges pred.edges) τ

/-- The user-facing `spacing` argument (scalar, per-axis vector, or one entry
per batch item). -/
inductive SpacingSpec where
  | scalar (s : ℚ)
  | vec (v : List ℚ)
  | perItem (ls : List (List ℚ))

/-- The fatal validation errors of §7 of the spec (the source raises
`ValueError` with a distinguishing message for each).  `InvalidInputType` and
`InvalidRank` cannot fire in this embedding because `Tensor4` is 4-D by
construction; `NonFiniteThreshold` cannot fire because thresholds are rational. -/
inductive SDError where
  | ShapeMismatch
  | NotBinarized
  | NotOneHot
  | ThresholdCountMismatch
  | NonFiniteThreshold
  | NegativeThreshold
  | InvalidSpacingSpec
  deriving DecidableEq

/-- Modelled from the spec: the Spacing Resolver collaborator (`prepare_spacing`
from `monai.metrics.utils`, not under src/) — scalar → isotropic broadcast,
per-axis sequence of length `img_dim` → broadcast to all items, per-item outer
sequence of length `batch_size` with inner length 1 or `img_dim`, absent → unit
spacing; anything else is `InvalidSpacingSpec`. -/
def prepare_spacing (spacing : Option SpacingSpec) (batch_size img_dim : ℕ) :
    Except SDError (List (List ℚ)) :=
  match spacing with
  | none => .ok (List.replicate batch_size (List.replicate img_dim 1))
  | some (.scalar s) => .ok (List.replicate batch_size (List.replicate img_dim s))
  | some (.vec v) =>
    if v.length = img_dim then .ok (List.replicate batch_size v)
    else .error .InvalidSpacingSpec
  | some (.perItem ls) =>
    if ls.length = batch_size ∧ ∀ l ∈ ls, l.length = 1 ∨ l.length = img_dim then
      .ok (ls.map (fun l => if l.length = 1 then List.replicate img_dim (l.getD 0 1) else l))
    else .error .InvalidSpacingSpec

/-- The NSD Result Tensor `[B, C]`; an entry is `none` for NaN. -/
abbrev NSDMat := List (List (Option ℚ))

/-- Entry `(b, c)` of a result matrix. -/
def matEntry (m : NSDMat) (b c : ℕ) : Option ℚ := (m.getD b []).getD c none

/-- The assembled `[B, C]` result of the loop at lines 247–275. -/
def nsdRows (O : SurfOracle) (spl : List (List ℚ)) (yp yt : Tensor4) (cls : List ℚ) :
    NSDMat :=
  (List.range yp.B).map (fun b =>
    (List.range yp.C).map (fun c =>
      nsd_bc O (spl.getD b []) (cls.getD c 0) (yp.img b c) (yt.img b c)))

/-- Lines 234–277, the continuation of `compute_surface_dice` after the
binarization checks: the threshold-count check, the threshold sign check
(the finiteness check at lines 241–242 cannot fire on rationals), spacing
resolution, and the main loop. -/
def compute_thresholds_and_loop (O : SurfOracle) (y_pred y : Tensor4)
    (class_thresholds : List ℚ) (spacing : Option SpacingSpec) :
    Except SDError NSDMat :=
  if y_pred.C ≠ class_thresholds.length then .error .ThresholdCountMismatch
  else if ∃ τ ∈ class_thresholds, τ < 0 then .error .NegativeThreshold
  else
    match prepare_spacing spacing y_pred.B 2 with
    | .error e => .error e
    | .ok spacing_list => .ok (nsdRows O spacing_list y_pred y class_thresholds)

/-- Lines 133–277, `compute_surface_dice`: background filtering, the validation
chain in source order, then the continuation above.  The tensor-type and
4-axis checks (lines 215–219) hold by construction of `Tensor4`; the float
conversion at lines 231–232 is the identity on the exact values accepted
here; the all-zero warnings at lines 254–257 are non-fatal and carry no
result. -/
def compute_surface_dice (O : SurfOracle) (y_pred0 y0 : Tensor4)
    (class_thresholds : List ℚ) (include_background : Bool)
    (spacing : Option SpacingSpec) : Except SDError NSDMat :=
  let y_pred := if include_background then y_pred0 else ignore_background y_pred0
  let y := if include_background then y0 else ignore_background y0
  if y_pred.shape ≠ y.shape then .error .ShapeMismatch
  else if ¬ (y_pred.binarized ∧ y.binarized) then .error .NotBinarized
  else if y_pred.hasGtOne ∨ y.hasGtOne then .error .NotOneHot
  else compute_thresholds_and_loop O y_pred y class_thresholds spacing

/-- The background-filtering step at lines 212–213, as one function: the
tensors the validation chain and the loop actually see. -/
def postFilter (include_background : Bool) (t : Tensor4) : Tensor4 :=
  if include_background then t else ignore_background t

/-- The conjunction of all validation checks of `compute_surface_dice`
succeeding (post background filtering). -/
def validFor (yp yt : Tensor4) (cls : List ℚ) : Prop :=
  yp.shape = yt.shape ∧ (yp.binarized ∧ yt.binarized) ∧
    ¬ (yp.hasGtOne ∨ yt.hasGtOne) ∧ yp.C = cls.length ∧ ¬ ∃ τ ∈ cls, τ < 0

instance : DecidableEq (Except SDError NSDMat) := fun a b =>
  match a, b with
  | .ok x, .ok y => if h : x = y then isTrue (by simp [h]) else isFalse (by simp [h])
  | .error e, .error f => if h : e = f then isTrue (by simp [h]) else isFalse (by simp [h])
  | .ok _, .error _ => isFalse (by simp)
  | .error _, .ok _ => isFalse (by simp)

instance : DecidableEq (Except SDError Unit) := fun a b =>
  match a, b with
  | .ok (), .ok () => isTrue rfl
  | .error e, .error f => if h : e = f then isTrue (by simp [h]) else isFalse (by simp [h])
  | .ok _, .error _ => isFalse (by simp)
  | .error _, .ok _ => isFalse (by simp)

/-- A per-axis spacing vector that does not depend on the batch size (the
non-`perItem` cases of `SpacingSpec`). -/
def specVec (spacing : Option SpacingSpec) (img_dim : ℕ) : List ℚ :=
  match spacing with
  | none => List.replicate img_dim 1
  | some (.scalar s) => List.replicate img_dim s
  | some (.vec v) => v
  | some (.perItem _) => []

/-- Spacing specifications that resolve uniformly for every batch item
(everything except an explicit per-item list). -/
def spacingUniform (spacing : Option SpacingSpec) : Prop :=
  match spacing with
  | some (.perItem _) => False
  | _ => True

/-! ### The cumulative metric state machine (lines 33–130)

`SurfaceDiceMetric` inherits its buffer handling from
`CumulativeIterationMetric`, which is not under src/; the buffer protocol is
modelled from the spec's §4.3 state machine: `update` runs `_compute_tensor`
(line 100, a direct call to `compute_surface_dice`) and appends the result to
the Accumulation Buffer; `get_buffer` concatenates the buffered `[B, C]`
results along the batch axis and is unavailable when nothing was accumulated;
`reset` clears the buffer. -/

/-- The reduction modes of `MetricReduction`. -/
inductive MetricReduction where
  | none
  | mean
  | sum
  | mean_batch
  | sum_batch
  | mean_channel
  | sum_channel
  deriving DecidableEq

/-- Modelled from the spec: the Reduction Engine collaborator
(`do_metric_reduction`, not under src/), abstracted by its contract —
`reduce buffer mode` returns the reduced tensor and the not-NaN counts, and
mode `none` performs no reduction ("returns raw [N,C]"). -/
structure ReduceEngine where
  reduce : NSDMat → MetricReduction → NSDMat × List ℕ
  reduce_none : ∀ d, (reduce d MetricReduction.none).1 = d

/-- A concrete Reduction Engine instance satisfying the contract, used to
evaluate the development on concrete inputs (counts the not-NaN entries per
row and reduces nothing). -/
def idEngine : ReduceEngine where
  reduce := fun d _ => (d, d.map (fun row => row.countP Option.isSome))
  reduce_none := fun _ => rfl

/-- Error raised by `aggregate` at lines 124–126 when the Accumulation Buffer
holds no tensor (spec: `EmptyBuffer`; the buffer being typed, the
`InvalidBufferContents` case cannot arise in this model). -/
inductive AggError where
  | EmptyBuffer
  deriving DecidableEq

/-- The metric instance: construction-time configuration (lines 63–76;
`distance_metric` selects a Surface Distance Oracle) plus the Accumulation
Buffer owned by the cumulative base class. -/
structure SurfaceDiceMetric where
  class_thresholds : List ℚ
  include_background : Bool
  distance_oracle : SurfOracle
  reduction : MetricReduction
  get_not_nans : Bool
  buffer : List NSDMat

/-- Operation `update` (`__call__`): runs `_compute_tensor` (lines 100–107) and appends
the `[B, C]` result to the buffer; the append happens only after the compute
returns, so a raised validation error leaves the buffer untouched. -/
def SurfaceDiceMetric.update (m : SurfaceDiceMetric) (y_pred y : Tensor4)
    (spacing : Option SpacingSpec) : Except SDError Unit × SurfaceDiceMetric :=
  match compute_surface_dice m.distance_oracle y_pred y m.class_thresholds
      m.include_background spacing with
  | .error e => (.error e, m)
  | .ok r => (.ok (), { m with buffer := m.buffer ++ [r] })

/-- Modelled from the spec: `get_buffer` of the cumulative base class —
the concatenation of all accumulated `[B, C]` results along the batch axis,
or nothing when the buffer is empty. -/
def SurfaceDiceMetric.get_buffer (m : SurfaceDiceMetric) : Option NSDMat :=
  match m.buffer with
  | [] => none
  | bs => some bs.flatten

/-- Lines 109–130, `aggregate`: fails when the buffer holds no tensor,
otherwise delegates to the Reduction Engine with the override reduction if one
is given, `self.reduction` otherwise.  (The `get_not_nans` flag only selects
between returning the pair or its first component; the pair is returned here.) -/
def SurfaceDiceMetric.aggregate (m : SurfaceDiceMetric) (E : ReduceEngine)
    (reduction : Option MetricReduction) : Except AggError (NSDMat × List ℕ) :=
  match m.get_buffer with
  | none => .error .EmptyBuffer
  | some data => .ok (E.reduce data (reduction.getD m.reduction))

/-- Operation `reset`: clears the Accumulation Buffer. -/
def SurfaceDiceMetric.reset (m : SurfaceDiceMetric) : SurfaceDiceMetric :=
  { m with buffer := [] }

/-! ### State-passing form of `compute_surface_dice`

The frame claim (the function never writes to its caller's tensors) is made
explicit by threading a store holding the caller's two tensor buffers through
a line-by-line translation of the function.  Every torch operation the source
performs either reads (`t.shape`, `t[b, c]`, comparisons) or allocates a fresh
tensor or view (`t[:, 1:]` in `ignore_background`, `t.byte()`, `t.float()`,
`np.empty`); none of them is an in-place mutation of an argument, so every
branch returns the store unchanged. -/

/-- The caller's view of the two argument tensors. -/
structure TensorStore where
  y_pred : Tensor4
  y : Tensor4

/-- The function `compute_surface_dice` with the caller's buffers threaded explicitly;
local rebindings (`y_pred = y_pred[:, 1:]`, `y = y.float()`) bind fresh
tensors and never write to the store. -/
def compute_surface_dice_st (O : SurfOracle) (st : TensorStore)
    (class_thresholds : List ℚ) (include_background : Bool)
    (spacing : Option SpacingSpec) : Except SDError NSDMat × TensorStore :=
  let y_pred := if include_background then st.y_pred else ignore_background st.y_pred
  let y := if include_background then st.y else ignore_background st.y
  if y_pred.shape ≠ y.shape then (.error .ShapeMismatch, st)
  else if ¬ (y_pred.binarized ∧ y.binarized) then (.error .NotBinarized, st)
  else if y_pred.hasGtOne ∨ y.hasGtOne then (.error .NotOneHot, st)
  else if y_pred.C ≠ class_thresholds.length then (.error .ThresholdCountMismatch, st)
  else if ∃ τ ∈ class_thresholds, τ < 0 then (.error .NegativeThreshold, st)
  else
    match prepare_spacing spacing y_pred.B 2 with
    | .error e => (.error e, st)
    | .ok spacing_list =>
      (.ok (nsdRows O spacing_list y_pred y class_thresholds), st)

/-! ### Concrete inputs

The spec's end-to-end example: `1×1×4×4` masks, a single class, a `2×2`
foreground square at the corner of the prediction and the same square shifted
right by one pixel in the reference. -/

/-- Predicted mask: foreground on rows 0–1, columns 0–1. -/
def exPred : Tensor4 :=
  ⟨1, 1, 4, 4, fun _ _ i j => if i ≤ 1 ∧ j ≤ 1 then 1 else 0⟩

/-- Reference mask: the same square shifted right by one pixel
(rows 0–1, columns 1–2). -/
def exRef : Tensor4 :=
  ⟨1, 1, 4, 4, fun _ _ i j => if i ≤ 1 ∧ 1 ≤ j ∧ j ≤ 2 then 1 else 0⟩

/-- An all-background `1×1×4×4` mask. -/
def exZero : Tensor4 := ⟨1, 1, 4, 4, fun _ _ _ _ => 0⟩

/-- A `1×1×4×4` tensor whose class channel holds the values `{0, 1, 2}`. -/
def exTwo : Tensor4 :=
  ⟨1, 1, 4, 4, fun _ _ i j => if i = 0 ∧ j = 0 then 2 else if i ≤ 1 ∧ j ≤ 1 then 1 else 0⟩

/-- A `1×1×1×2` binary tensor (shape-incompatible with `exOne`). -/
def exWide : Tensor4 := ⟨1, 1, 1, 2, fun _ _ _ _ => 1⟩

/-- A `1×1×1×1` binary tensor. -/
def exOne : Tensor4 := ⟨1, 1, 1, 1, fun _ _ _ _ => 1⟩

/-- A freshly constructed metric (single class, threshold 0, background kept,
taxicab oracle, empty Accumulation Buffer). -/
def exMetric : SurfaceDiceMetric :=
  ⟨[0], true, taxiOracle, MetricReduction.none, false, []⟩

/-- The `[1, 1]` result of the end-to-end example at threshold 0, written as
the unreduced ratio the evaluator produces (4 of the 8 boundary distances are
zero). -/
def exResHalf : NSDMat := [[some (((4 : ℕ) : ℚ) / ((8 : ℕ) : ℚ))]]

/-- The example's result at threshold 5 (all 8 distances within tolerance). -/
def exResOne : NSDMat := [[some (((8 : ℕ) : ℚ) / ((8 : ℕ) : ℚ))]]

/-- The result of comparing the example prediction against an all-background
reference (4 infinite distances, none within tolerance). -/
def exResZero : NSDMat := [[some (((0 : ℕ) : ℚ) / ((4 : ℕ) : ℚ))]]


lemma prepare_spacing_error_eq {sp : Option SpacingSpec} {B d : ℕ} {e : SDError}
    (h : prepare_spacing sp B d = .error e) : e = SDError.InvalidSpacingSpec := by
  unfold prepare_spacing at h
  split at h
  · simp at h
  · simp at h
  · split at h
    · simp at h
    · injection h with h
      exact h.symm
  · split at h
    · simp at h
    · injection h with h
      exact h.symm

lemma compute_ok_iff {O : SurfOracle} {yp0 y0 : Tensor4} {cls : List ℚ} {ib : Bool}
    {sp : Option SpacingSpec} {res : NSDMat} :
    compute_surface_dice O yp0 y0 cls ib sp = .ok res ↔
      validFor (postFilter ib yp0) (postFilter ib y0) cls ∧
      ∃ spl, prepare_spacing sp (postFilter ib yp0).B 2 = .ok spl ∧
        res = nsdRows O spl (postFilter ib yp0) (postFilter ib y0) cls := by
  simp only [compute_surface_dice, compute_thresholds_and_loop, validFor, postFilter]
  set yp := if ib then yp0 else ignore_background yp0 with hyp
  set yt := if ib then y0 else ignore_background y0 with hyt
  by_cases h1 : yp.shape = yt.shape
  · rw [if_neg (by simp [h1])]
    by_cases h2 : yp.binarized ∧ yt.binarized
    · rw [if_neg (by simp [h2.1, h2.2])]
      by_cases h3 : yp.hasGtOne ∨ yt.hasGtOne
      · simp [h3]
      · rw [if_neg h3]
        by_cases h4 : yp.C = cls.length
        · rw [if_neg (by simp [h4])]
          by_cases h5 : ∃ τ ∈ cls, τ < 0
          · simp [h5, h1, h2, h3, h4]
          · rw [if_neg h5]
            cases hsp : prepare_spacing sp yp.B 2 with
            | error e => simp [h1, h2.1, h2.2, h3, h4, h5, hsp]
            | ok spl =>
              simp only [Except.ok.injEq]
              constructor
              · intro hres
                exact ⟨⟨h1, ⟨h2.1, h2.2⟩, h3, h4, h5⟩, spl, rfl, hres.symm⟩
              · rintro ⟨-, spl', hspl', hres⟩
                cases hspl'
                exact hres.symm
        · simp [h4, h1, h2, h3]
    · rw [if_pos (by tauto)]
      simp [h2, h1]
  · simp [h1]

lemma nsd_eval_eq_none_iff {dpg dgp : List (Option ℚ)} {τ : ℚ} :
    nsd_eval dpg dgp τ = none ↔ dpg.length + dgp.length = 0 := by
  unfold nsd_eval
  dsimp only
  split <;> simp_all

lemma nsd_eval_of_pos {dpg dgp : List (Option ℚ)} {τ : ℚ}
    (h : dpg.length + dgp.length ≠ 0) :
    nsd_eval dpg dgp τ =
      some (((dpg.countP (fun d => distLE d τ) + dgp.countP (fun d => distLE d τ) : ℕ) : ℚ) /
        ((dpg.length + dgp.length : ℕ) : ℚ)) := by
  unfold nsd_eval
  dsimp only
  rw [if_neg h]

lemma nsd_eval_bounds {dpg dgp : List (Option ℚ)} {τ : ℚ} {q : ℚ}
    (h : nsd_eval dpg dgp τ = some q) : 0 ≤ q ∧ q ≤ 1 := by
  by_cases h0 : dpg.length + dgp.length = 0
  · rw [nsd_eval_eq_none_iff.mpr h0] at h
    cases h
  · rw [nsd_eval_of_pos h0] at h
    injection h with h
    subst h
    have hpos : (0 : ℚ) < ((dpg.length + dgp.length : ℕ) : ℚ) := by
      exact_mod_cast Nat.pos_of_ne_zero h0
    constructor
    · exact div_nonneg (by positivity) hpos.le
    · rw [div_le_one hpos]
      exact_mod_cast Nat.add_le_add (List.countP_le_length _) (List.countP_le_length _)

lemma distLE_mono {d : Option ℚ} {τ τ' : ℚ} (h : τ ≤ τ') (hd : distLE d τ = true) :
    distLE d τ' = true := by
  cases d with
  | none => simp [distLE] at hd
  | some x =>
    simp only [distLE, decide_eq_true_eq] at hd ⊢
    exact le_trans hd h

lemma nsd_eval_mono {dpg dgp : List (Option ℚ)} {τ τ' : ℚ} (h : τ ≤ τ') :
    (nsd_eval dpg dgp τ = none ↔ nsd_eval dpg dgp τ' = none) ∧
    ∀ q q', nsd_eval dpg dgp τ = some q → nsd_eval dpg dgp τ' = some q' → q ≤ q' := by
  constructor
  · rw [nsd_eval_eq_none_iff, nsd_eval_eq_none_iff]
  · intro q q' hq hq'
    by_cases h0 : dpg.length + dgp.length = 0
    · rw [nsd_eval_eq_none_iff.mpr h0] at hq
      cases hq
    · rw [nsd_eval_of_pos h0] at hq
      rw [nsd_eval_of_pos h0] at hq'
      injection hq with hq
      injection hq' with hq'
      subst hq
      subst hq'
      have hpos : (0 : ℚ) < ((dpg.length + dgp.length : ℕ) : ℚ) := by
        exact_mod_cast Nat.pos_of_ne_zero h0
      refine (div_le_div_iff_of_pos_right hpos).mpr ?_
      exact_mod_cast Nat.add_le_add
        (List.countP_mono_left (fun d _ hd => distLE_mono h hd))
        (List.countP_mono_left (fun d _ hd => distLE_mono h hd))

lemma isEdge_bounds {img : Img} {i j : ℕ} (h : img.isEdge i j = true) :
    i < img.H ∧ j < img.W := by
  unfold Img.isEdge Img.fgN at h
  simp only [Bool.and_eq_true, decide_eq_true_eq] at h
  exact ⟨h.1.1.1, h.1.1.2⟩

lemma fgN_of_isEdge {img : Img} {i j : ℕ} (h : img.isEdge i j = true) :
    img.fgN i j = true := by
  unfold Img.isEdge at h
  exact (Bool.and_eq_true _ _ |>.mp h).1

lemma mem_edges {img : Img} {i j : ℕ} :
    (i, j) ∈ img.edges ↔ img.isEdge i j = true := by
  unfold Img.edges
  rw [List.mem_flatten]
  constructor
  · rintro ⟨l, hl, hmem⟩
    rcases List.mem_map.mp hl with ⟨a, _, rfl⟩
    rcases List.mem_filterMap.mp hmem with ⟨b, _, hab⟩
    by_cases hE : img.isEdge a b = true
    · rw [if_pos hE] at hab
      injection hab with hab
      obtain ⟨rfl, rfl⟩ := Prod.mk.injEq .. |>.mp hab
      exact hE
    · rw [if_neg hE] at hab
      cases hab
  · intro hE
    refine ⟨(List.range img.W).filterMap
      (fun j' => if img.isEdge i j' then some (i, j') else none), ?_, ?_⟩
    · exact List.mem_map.mpr ⟨i, List.mem_range.mpr (isEdge_bounds hE).1, rfl⟩
    · exact List.mem_filterMap.mpr ⟨j, List.mem_range.mpr (isEdge_bounds hE).2, by simp [hE]⟩

lemma exists_edge_of_fgN {img : Img} :
    ∀ i j, img.fgN i j = true → ∃ a b, img.isEdge a b = true := by
  intro i
  induction i with
  | zero =>
    intro j hj
    refine ⟨0, j, ?_⟩
    unfold Img.isEdge
    simp [hj]
  | succ k ih =>
    intro j hj
    by_cases hk : img.fgN k j = true
    · exact ih j hk
    · refine ⟨k + 1, j, ?_⟩
      have hk' : img.fgN k j = false := by
        cases hx : img.fgN k j
        · rfl
        · exact absurd hx hk
      unfold Img.isEdge
      rw [hj]
      simp [hk']

lemma hasFg_iff_fgN {img : Img} : img.hasFg ↔ ∃ i j, img.fgN i j = true := by
  unfold Img.hasFg Img.fgN
  constructor
  · rintro ⟨i, hi, j, hj, hv⟩
    exact ⟨i, j, by simp [hi, hj, hv]⟩
  · rintro ⟨i, j, h⟩
    simp only [Bool.and_eq_true, decide_eq_true_eq] at h
    exact ⟨i, h.1.1, j, h.1.2, h.2⟩

lemma edges_ne_nil_iff {img : Img} : img.edges ≠ [] ↔ img.hasFg := by
  constructor
  · intro h
    rcases List.exists_mem_of_ne_nil _ h with ⟨p, hp⟩
    obtain ⟨i, j⟩ := p
    have hE := mem_edges.mp hp
    rw [hasFg_iff_fgN]
    exact ⟨i, j, fgN_of_isEdge hE⟩
  · intro h
    rcases hasFg_iff_fgN.mp h with ⟨i, j, hf⟩
    rcases exists_edge_of_fgN i j hf with ⟨a, b, hE⟩
    exact List.ne_nil_of_mem (mem_edges.mpr hE)

lemma edges_eq_nil_of_not_hasFg {img : Img} (h : ¬ img.hasFg) : img.edges = [] := by
  by_contra hne
  exact h (edges_ne_nil_iff.mp hne)

lemma nsdRows_length {O : SurfOracle} {spl : List (List ℚ)} {yp yt : Tensor4}
    {cls : List ℚ} : (nsdRows O spl yp yt cls).length = yp.B := by
  simp [nsdRows]

lemma nsdRows_row_length {O : SurfOracle} {spl : List (List ℚ)} {yp yt : Tensor4}
    {cls : List ℚ} {row : List (Option ℚ)} (h : row ∈ nsdRows O spl yp yt cls) :
    row.length = yp.C := by
  unfold nsdRows at h
  rcases List.mem_map.mp h with ⟨b, _, rfl⟩
  simp

lemma nsdRows_entry {O : SurfOracle} {spl : List (List ℚ)} {yp yt : Tensor4}
    {cls : List ℚ} {b c : ℕ} (hb : b < yp.B) (hc : c < yp.C) :
    matEntry (nsdRows O spl yp yt cls) b c =
      nsd_bc O (spl.getD b []) (cls.getD c 0) (yp.img b c) (yt.img b c) := by
  simp [matEntry, nsdRows, List.getD_eq_getElem?_getD, List.getElem?_map,
    List.getElem?_range, hb, hc]

lemma mem_nsdRows {O : SurfOracle} {spl : List (List ℚ)} {yp yt : Tensor4}
    {cls : List ℚ} {row : List (Option ℚ)} {e : Option ℚ}
    (hrow : row ∈ nsdRows O spl yp yt cls) (he : e ∈ row) :
    ∃ b c, e = nsd_bc O (spl.getD b []) (cls.getD c 0) (yp.img b c) (yt.img b c) := by
  unfold nsdRows at hrow
  rcases List.mem_map.mp hrow with ⟨b, _, rfl⟩
  rcases List.mem_map.mp he with ⟨c, _, rfl⟩
  exact ⟨b, c, rfl⟩

lemma compute_ok_res {O : SurfOracle} {yp0 y0 : Tensor4} {cls : List ℚ} {ib : Bool}
    {sp : Option SpacingSpec} {res : NSDMat} {spl : List (List ℚ)}
    (h : compute_surface_dice O yp0 y0 cls ib sp = .ok res)
    (hspl : prepare_spacing sp (postFilter ib yp0).B 2 = .ok spl) :
    res = nsdRows O spl (postFilter ib yp0) (postFilter ib y0) cls ∧
      validFor (postFilter ib yp0) (postFilter ib y0) cls := by
  obtain ⟨hv, spl', hspl', hres⟩ := compute_ok_iff.mp h
  rw [hspl] at hspl'
  injection hspl' with hspl'
  subst hspl'
  exact ⟨hres, hv⟩

lemma binarized_iff_integral {t : Tensor4} (h : t.byteSafe) :
    t.binarized ↔ t.integral := by
  unfold Tensor4.binarized Tensor4.integral
  constructor <;> intro hall b hb c hc i hi j hj <;>
    have hs := h b hb c hc i hi j hj <;>
    have he : ratTrunc (t.val b c i j) % 256 = ratTrunc (t.val b c i j) :=
      Int.emod_eq_of_lt hs.1 (by omega) <;>
    have hx := hall b hb c hc i hi j hj
  · unfold byteOf at hx
    rwa [he] at hx
  · unfold byteOf
    rwa [he]

/-- C1: for every (sample, class) pair, the entry produced by
`compute_surface_dice` is exactly the Boundary-Correctness Evaluator applied to
the two directional distance arrays of that pair: NaN (`none`) precisely when
`complete = len(pred_to_gt) + len(gt_to_pred)` is zero — equivalently when
neither mask has boundary pixels for the class — and otherwise the ratio
`correct / complete` with `correct` the count of distances within the class
threshold. -/
theorem C1_boundary_correctness_evaluator (O : SurfOracle) (yp0 y0 : Tensor4)
    (cls : List ℚ) (ib : Bool) (sp : Option SpacingSpec) (res : NSDMat)
    (spl : List (List ℚ)) (b c : ℕ)
    (h : compute_surface_dice O yp0 y0 cls ib sp = .ok res)
    (hspl : prepare_spacing sp (postFilter ib yp0).B 2 = .ok spl)
    (hb : b < (postFilter ib yp0).B) (hc : c < (postFilter ib yp0).C) :
    matEntry res b c =
      nsd_eval (O.dists (spl.getD b []) ((postFilter ib yp0).img b c).edges ((postFilter ib y0).img b c).edges)
        (O.dists (spl.getD b []) ((postFilter ib y0).img b c).edges ((postFilter ib yp0).img b c).edges)
        (cls.getD c 0) ∧
    (matEntry res b c = none ↔
      (O.dists (spl.getD b []) ((postFilter ib yp0).img b c).edges ((postFilter ib y0).img b c).edges).length +
        (O.dists (spl.getD b []) ((postFilter ib y0).img b c).edges ((postFilter ib yp0).img b c).edges).length = 0) ∧
    ((O.dists (spl.getD b []) ((postFilter ib yp0).img b c).edges ((postFilter ib y0).img b c).edges).length +
        (O.dists (spl.getD b []) ((postFilter ib y0).img b c).edges ((postFilter ib yp0).img b c).edges).length = 0 ↔
      ((postFilter ib yp0).img b c).edges = [] ∧ ((postFilter ib y0).img b c).edges = []) ∧
    ((O.dists (spl.getD b []) ((postFilter ib yp0).img b c).edges ((postFilter ib y0).img b c).edges).length +
        (O.dists (spl.getD b []) ((postFilter ib y0).img b c).edges ((postFilter ib yp0).img b c).edges).length ≠ 0 →
      matEntry res b c = some
        ((((O.dists (spl.getD b []) ((postFilter ib yp0).img b c).edges ((postFilter ib y0).img b c).edges).countP
              (fun d => distLE d (cls.getD c 0)) +
            (O.dists (spl.getD b []) ((postFilter ib y0).img b c).edges ((postFilter ib yp0).img b c).edges).countP
              (fun d => distLE d (cls.getD c 0)) : ℕ) : ℚ) /
          (((O.dists (spl.getD b []) ((postFilter ib yp0).img b c).edges ((postFilter ib y0).img b c).edges).length +
            (O.dists (spl.getD b []) ((postFilter ib y0).img b c).edges ((postFilter ib yp0).img b c).edges).length : ℕ) : ℚ))) := by
  obtain ⟨hres, hv⟩ := compute_ok_res h hspl
  subst hres
  rw [nsdRows_entry hb hc]
  unfold nsd_bc
  refine ⟨rfl, nsd_eval_eq_none_iff, ?_, nsd_eval_of_pos⟩
  rw [O.length_eq, O.length_eq, Nat.add_eq_zero, List.length_eq_zero, List.length_eq_zero]

/-- C2: when exactly one of the two masks has foreground for the class, the
NSD entry is exactly `0`: one directional array is empty, the other is
nonempty and consists of infinite distances (the oracle contract for an empty
target set), so `correct = 0 < complete`. -/
theorem C2_one_sided_zero (O : SurfOracle) (yp0 y0 : Tensor4)
    (cls : List ℚ) (ib : Bool) (sp : Option SpacingSpec) (res : NSDMat)
    (spl : List (List ℚ)) (b c : ℕ)
    (h : compute_surface_dice O yp0 y0 cls ib sp = .ok res)
    (hspl : prepare_spacing sp (postFilter ib yp0).B 2 = .ok spl)
    (hb : b < (postFilter ib yp0).B) (hc : c < (postFilter ib yp0).C)
    (hone : (((postFilter ib yp0).img b c).hasFg ∧ ¬ ((postFilter ib y0).img b c).hasFg) ∨
            (¬ ((postFilter ib yp0).img b c).hasFg ∧ ((postFilter ib y0).img b c).hasFg)) :
    matEntry res b c = some 0 := by
  obtain ⟨hres, hv⟩ := compute_ok_res h hspl
  subst hres
  rw [nsdRows_entry hb hc]
  unfold nsd_bc
  set pI := (postFilter ib yp0).img b c
  set gI := (postFilter ib y0).img b c
  have main : ∀ a z : Img, a.hasFg → ¬ z.hasFg →
      nsd_eval (O.dists (spl.getD b []) a.edges z.edges)
        (O.dists (spl.getD b []) z.edges a.edges) (cls.getD c 0) = some 0 ∧
      nsd_eval (O.dists (spl.getD b []) z.edges a.edges)
        (O.dists (spl.getD b []) a.edges z.edges) (cls.getD c 0) = some 0 := by
    intro a z ha hz
    have hza : z.edges = [] := edges_eq_nil_of_not_hasFg hz
    have haa : a.edges ≠ [] := edges_ne_nil_iff.mpr ha
    have hlen1 : (O.dists (spl.getD b []) a.edges z.edges).length = a.edges.length := O.length_eq ..
    have hlen2 : (O.dists (spl.getD b []) z.edges a.edges).length = 0 := by
      rw [O.length_eq, hza, List.length_nil]
    have hnil2 : O.dists (spl.getD b []) z.edges a.edges = [] := List.length_eq_zero.mp hlen2
    have hcnt1 : (O.dists (spl.getD b []) a.edges z.edges).countP
        (fun d => distLE d (cls.getD c 0)) = 0 := by
      rw [List.countP_eq_zero]
      intro d hd
      rw [hza] at hd
      rw [O.empty_target _ _ _ hd]
      simp [distLE]
    have hpos : (O.dists (spl.getD b []) a.edges z.edges).length +
        (O.dists (spl.getD b []) z.edges a.edges).length ≠ 0 := by
      rw [hlen1, hlen2]
      have := List.length_pos.mpr haa
      omega
    constructor
    · rw [nsd_eval_of_pos hpos, hcnt1, hnil2]
      simp
    · rw [nsd_eval_of_pos (by rwa [Nat.add_comm] at hpos), hcnt1, hnil2]
      simp
  rcases hone with ⟨hp, hg⟩ | ⟨hp, hg⟩
  · exact (main pI gI hp hg).1
  · exact (main gI pI hg hp).2

lemma compute_tail_error_cases {O : SurfOracle} {yp yt : Tensor4} {cls : List ℚ}
    {sp : Option SpacingSpec} {e : SDError}
    (h : compute_thresholds_and_loop O yp yt cls sp = .error e) :
    e = .ThresholdCountMismatch ∨ e = .NegativeThreshold ∨ e = .InvalidSpacingSpec := by
  unfold compute_thresholds_and_loop at h
  split at h
  · injection h with h
    exact Or.inl h.symm
  · split at h
    · injection h with h
      exact Or.inr (Or.inl h.symm)
    · split at h
      · rename_i e' he'
        injection h with h
        subst h
        exact Or.inr (Or.inr (prepare_spacing_error_eq he'))
      · cases h

/-- C3: with both (post-filter) tensors inside the domain where the byte cast
is defined and their shapes equal, `compute_surface_dice` raises the
not-binarized error exactly when some element differs from its own truncation
to an integer value, and raises the not-one-hot error exactly when every
element is integral but some element exceeds one. -/
theorem C3_binarization_errors (O : SurfOracle) (yp0 y0 : Tensor4)
    (cls : List ℚ) (ib : Bool) (sp : Option SpacingSpec)
    (hsafe1 : (postFilter ib yp0).byteSafe) (hsafe2 : (postFilter ib y0).byteSafe)
    (hshape : (postFilter ib yp0).shape = (postFilter ib y0).shape) :
    (compute_surface_dice O yp0 y0 cls ib sp = .error .NotBinarized ↔
      ¬ ((postFilter ib yp0).integral ∧ (postFilter ib y0).integral)) ∧
    (compute_surface_dice O yp0 y0 cls ib sp = .error .NotOneHot ↔
      ((postFilter ib yp0).integral ∧ (postFilter ib y0).integral) ∧
        ((postFilter ib yp0).hasGtOne ∨ (postFilter ib y0).hasGtOne)) := by
  have hint1 := binarized_iff_integral hsafe1
  have hint2 := binarized_iff_integral hsafe2
  rw [postFilter] at hint1 hsafe1
  rw [postFilter] at hint2 hsafe2
  rw [postFilter, postFilter] at hshape
  simp only [compute_surface_dice, postFilter]
  rw [if_neg (by simp [hshape])]
  by_cases hbin : (if ib then yp0 else ignore_background yp0).binarized ∧
      (if ib then y0 else ignore_background y0).binarized
  · rw [if_neg (by simpa using hbin)]
    have hrint : (if ib then yp0 else ignore_background yp0).integral ∧
        (if ib then y0 else ignore_background y0).integral :=
      ⟨hint1.mp hbin.1, hint2.mp hbin.2⟩
    by_cases hgt : (if ib then yp0 else ignore_background yp0).hasGtOne ∨
        (if ib then y0 else ignore_background y0).hasGtOne
    · rw [if_pos hgt]
      constructor
      · constructor
        · intro hx
          cases hx
        · intro hx
          exact absurd hrint hx
      · simp [hrint, hgt]
    · rw [if_neg hgt]
      constructor
      · constructor
        · intro hx
          rcases compute_tail_error_cases hx with h | h | h <;> cases h
        · intro hx
          exact absurd hrint hx
      · constructor
        · intro hx
          rcases compute_tail_error_cases hx with h | h | h <;> cases h
        · intro hx
          exact absurd hx.2 hgt
  · rw [if_pos (by simpa using hbin)]
    have hrint : ¬ ((if ib then yp0 else ignore_background yp0).integral ∧
        (if ib then y0 else ignore_background y0).integral) := by
      intro hx
      exact hbin ⟨hint1.mpr hx.1, hint2.mpr hx.2⟩
    constructor
    · simp [hrint]
    · constructor
      · intro hx
        cases hx
      · intro hx
        exact absurd hx.1 hrint

/-- C4: for fixed inputs, raising the threshold of class `i` to any larger
value keeps the computation successful and never decreases that class's NSD
entry; NaN entries stay NaN. -/
theorem C4_threshold_monotone (O : SurfOracle) (yp0 y0 : Tensor4)
    (cls : List ℚ) (ib : Bool) (sp : Option SpacingSpec) (res : NSDMat)
    (i : ℕ) (τ' : ℚ)
    (h : compute_surface_dice O yp0 y0 cls ib sp = .ok res)
    (hi : i < cls.length) (hτ : cls.getD i 0 ≤ τ') :
    ∃ res', compute_surface_dice O yp0 y0 (cls.set i τ') ib sp = .ok res' ∧
      ∀ b < (postFilter ib yp0).B,
        (matEntry res b i = none ↔ matEntry res' b i = none) ∧
        ∀ q q', matEntry res b i = some q → matEntry res' b i = some q' → q ≤ q' := by
  obtain ⟨hv, spl, hspl, hres⟩ := compute_ok_iff.mp h
  obtain ⟨h1, h2, h3, h4, h5⟩ := hv
  have hi' : i < (postFilter ib yp0).C := by rw [h4]; exact hi
  have hv' : validFor (postFilter ib yp0) (postFilter ib y0) (cls.set i τ') := by
    refine ⟨h1, h2, h3, by rw [h4, List.length_set], ?_⟩
    rintro ⟨τ, hmem, hneg⟩
    rcases List.mem_or_eq_of_mem_set hmem with hm | rfl
    · exact h5 ⟨τ, hm, hneg⟩
    · have h0 : ¬ cls.getD i 0 < 0 := by
        intro hlt
        exact h5 ⟨cls.getD i 0, by rw [List.getD_eq_getElem cls 0 hi]; exact List.getElem_mem hi, hlt⟩
      exact h0 (lt_of_le_of_lt hτ hneg)
  refine ⟨nsdRows O spl (postFilter ib yp0) (postFilter ib y0) (cls.set i τ'),
    compute_ok_iff.mpr ⟨hv', spl, hspl, rfl⟩, ?_⟩
  intro b hb
  subst hres
  rw [nsdRows_entry hb hi', nsdRows_entry hb hi']
  have hset : (cls.set i τ').getD i 0 = τ' := by
    rw [List.getD_eq_getElem _ _ (by rw [List.length_set]; exact hi)]
    simp
  rw [hset]
  unfold nsd_bc
  exact nsd_eval_mono hτ

/-- C5: every successful call returns a `[batch, class]` matrix (dimensions
those of the post-filter tensors) in which every entry is either NaN or a
rational in `[0, 1]`. -/
theorem C5_result_shape_and_range (O : SurfOracle) (yp0 y0 : Tensor4)
    (cls : List ℚ) (ib : Bool) (sp : Option SpacingSpec) (res : NSDMat)
    (h : compute_surface_dice O yp0 y0 cls ib sp = .ok res) :
    res.length = (postFilter ib yp0).B ∧
    (∀ row ∈ res, row.length = (postFilter ib yp0).C) ∧
    (∀ row ∈ res, ∀ e ∈ row, e = none ∨ ∃ q, e = some q ∧ 0 ≤ q ∧ q ≤ 1) := by
  obtain ⟨hv, spl, hspl, hres⟩ := compute_ok_iff.mp h
  subst hres
  refine ⟨nsdRows_length, fun row hrow => nsdRows_row_length hrow, ?_⟩
  intro row hrow e he
  obtain ⟨b, c, rfl⟩ := mem_nsdRows hrow he
  unfold nsd_bc
  cases hval : nsd_eval (O.dists (spl.getD b []) (((postFilter ib yp0).img b c).edges)
      (((postFilter ib y0).img b c).edges))
      (O.dists (spl.getD b []) (((postFilter ib y0).img b c).edges)
      (((postFilter ib yp0).img b c).edges)) (cls.getD c 0) with
  | none => exact Or.inl rfl
  | some q => exact Or.inr ⟨q, rfl, nsd_eval_bounds hval⟩

/-- C9: `compute_surface_dice` is a pure function of its arguments — two
calls on identical inputs return identical results — and on the spec's
1×1×4×4 example (a 2×2 square versus the same square shifted by one pixel,
threshold 0) the single NSD value is 1/2, strictly between 0 and 1. -/
theorem C9_deterministic_and_example :
    (∀ (O : SurfOracle) (yp y : Tensor4) (cls : List ℚ) (ib : Bool)
      (sp : Option SpacingSpec),
      compute_surface_dice O yp y cls ib sp = compute_surface_dice O yp y cls ib sp) ∧
    compute_surface_dice taxiOracle exPred exRef [0] true Option.none =
      .ok [[some (1/2)]] ∧
    (0 : ℚ) < 1/2 ∧ (1/2 : ℚ) < 1 := by
  refine ⟨fun _ _ _ _ _ _ => rfl, ?_, by norm_num, by norm_num⟩
  have h : compute_surface_dice taxiOracle exPred exRef [0] true Option.none =
      .ok exResHalf := rfl
  rw [h]
  simp only [exResHalf, Except.ok.injEq, List.cons.injEq, Option.some.injEq, and_true]
  norm_num

/-- C10: `compute_surface_dice` never writes to its caller's tensors: the
state-passing translation returns the store unchanged in every branch
(success and every validation failure), and its result agrees with the direct
function on the stored tensors. -/
theorem C10_inputs_unmodified (O : SurfOracle) (st : TensorStore) (cls : List ℚ)
    (ib : Bool) (sp : Option SpacingSpec) :
    (compute_surface_dice_st O st cls ib sp).2 = st ∧
    (compute_surface_dice_st O st cls ib sp).1 =
      compute_surface_dice O st.y_pred st.y cls ib sp := by
  unfold compute_surface_dice_st compute_surface_dice compute_thresholds_and_loop
  refine ⟨?_, ?_⟩ <;> (dsimp only; repeat' split) <;> rfl

/-- Witness for C1 at the end-to-end example: the entry is the 4/8 ratio and
is not NaN. -/
theorem C1_witness :
    matEntry exResHalf 0 0 = some (((4 : ℕ) : ℚ) / ((8 : ℕ) : ℚ)) ∧
    ¬ matEntry exResHalf 0 0 = none := by
  have happ := C1_boundary_correctness_evaluator taxiOracle exPred exRef [0] true
    Option.none exResHalf (List.replicate 1 (List.replicate 2 1)) 0 0 rfl rfl
    (by decide) (by decide)
  refine ⟨happ.1, fun hn => absurd (happ.2.1.mp hn) (by decide)⟩

/-- Witness for C2: prediction with foreground, all-background reference, NSD
entry exactly 0. -/
theorem C2_witness : matEntry exResZero 0 0 = some 0 :=
  C2_one_sided_zero taxiOracle exPred exZero [0] true Option.none exResZero
    (List.replicate 1 (List.replicate 2 1)) 0 0 rfl rfl (by decide) (by decide)
    (Or.inl ⟨by decide, by decide⟩)

/-- Witness for C3: a class channel holding the values `{0, 1, 2}` fails with
the not-one-hot error. -/
theorem C3_witness :
    compute_surface_dice taxiOracle exTwo exPred [0] true Option.none =
      .error SDError.NotOneHot :=
  (C3_binarization_errors taxiOracle exTwo exPred [0] true Option.none
    (by decide) (by decide) (by decide)).2.mpr ⟨⟨by decide, by decide⟩, Or.inl (by decide)⟩

/-- Witness for C4: raising the example's threshold from 0 to 5 raises the
entry from 4/8 to 8/8. -/
theorem C4_witness :
    (((4 : ℕ) : ℚ) / ((8 : ℕ) : ℚ)) ≤ (((8 : ℕ) : ℚ) / ((8 : ℕ) : ℚ)) := by
  obtain ⟨res', hres', hmono⟩ := C4_threshold_monotone taxiOracle exPred exRef [0] true
    Option.none exResHalf 0 5 rfl (by decide) (by decide)
  have hone : compute_surface_dice taxiOracle exPred exRef ([0].set 0 5) true Option.none =
      .ok exResOne := rfl
  rw [hone] at hres'
  injection hres' with hres'
  subst hres'
  exact (hmono 0 (by decide)).2 _ _ rfl rfl

/-- Witness for C5 at the end-to-end example: a batch dimension of 1. -/
theorem C5_witness : exResHalf.length = 1 :=
  (C5_result_shape_and_range taxiOracle exPred exRef [0] true Option.none exResHalf rfl).1

lemma ignore_background_bcat (t u : Tensor4) :
    ignore_background (t.bcat u) = (ignore_background t).bcat (ignore_background u) := rfl

lemma postFilter_bcat (ib : Bool) (t u : Tensor4) :
    postFilter ib (t.bcat u) = (postFilter ib t).bcat (postFilter ib u) := by
  cases ib <;> rfl

lemma postFilter_B {ib : Bool} {t : Tensor4} : (postFilter ib t).B = t.B := by
  cases ib <;> rfl

lemma postFilter_H {ib : Bool} {t : Tensor4} : (postFilter ib t).H = t.H := by
  cases ib <;> rfl

lemma postFilter_W {ib : Bool} {t : Tensor4} : (postFilter ib t).W = t.W := by
  cases ib <;> rfl

lemma postFilter_C_congr {ib : Bool} {t u : Tensor4} (h : t.C = u.C) :
    (postFilter ib t).C = (postFilter ib u).C := by
  cases ib <;> simp [postFilter, ignore_background, h]

lemma shape_eq_iff {t u : Tensor4} :
    t.shape = u.shape ↔ t.B = u.B ∧ t.C = u.C ∧ t.H = u.H ∧ t.W = u.W := by
  unfold Tensor4.shape
  simp [Prod.ext_iff]

lemma binarized_bcat {t u : Tensor4} (hC : u.C = t.C) (hH : u.H = t.H)
    (hW : u.W = t.W) : (t.bcat u).binarized ↔ t.binarized ∧ u.binarized := by
  unfold Tensor4.bcat Tensor4.binarized
  dsimp only
  constructor
  · intro h
    constructor
    · intro b hb c hc i hi j hj
      have hx := h b (by omega) c hc i hi j hj
      rwa [if_pos hb] at hx
    · intro b hb c hc i hi j hj
      have hx := h (t.B + b) (by omega) c (by omega) i (by omega) j (by omega)
      rwa [if_neg (by omega), Nat.add_sub_cancel_left] at hx
  · rintro ⟨h1, h2⟩ b hb c hc i hi j hj
    by_cases hb' : b < t.B
    · rw [if_pos hb']
      exact h1 b hb' c hc i hi j hj
    · rw [if_neg hb']
      exact h2 (b - t.B) (by omega) c (by omega) i (by omega) j (by omega)

lemma hasGtOne_bcat {t u : Tensor4} (hC : u.C = t.C) (hH : u.H = t.H)
    (hW : u.W = t.W) : (t.bcat u).hasGtOne ↔ t.hasGtOne ∨ u.hasGtOne := by
  unfold Tensor4.bcat Tensor4.hasGtOne
  dsimp only
  constructor
  · rintro ⟨b, hb, c, hc, i, hi, j, hj, hval⟩
    by_cases hb' : b < t.B
    · rw [if_pos hb'] at hval
      exact Or.inl ⟨b, hb', c, hc, i, hi, j, hj, hval⟩
    · rw [if_neg hb'] at hval
      exact Or.inr ⟨b - t.B, by omega, c, by omega, i, by omega, j, by omega, hval⟩
  · rintro (⟨b, hb, c, hc, i, hi, j, hj, hval⟩ | ⟨b, hb, c, hc, i, hi, j, hj, hval⟩)
    · exact ⟨b, by omega, c, hc, i, hi, j, hj, by rwa [if_pos hb]⟩
    · exact ⟨t.B + b, by omega, c, by omega, i, by omega, j, by omega, by
        rwa [if_neg (by omega), Nat.add_sub_cancel_left]⟩

lemma prepare_spacing_uniform {sp : Option SpacingSpec} (hu : spacingUniform sp)
    {B d : ℕ} {spl : List (List ℚ)} (h : prepare_spacing sp B d = .ok spl) :
    spl = List.replicate B (specVec sp d) ∧
    ∀ B', prepare_spacing sp B' d = .ok (List.replicate B' (specVec sp d)) := by
  cases sp with
  | none =>
    unfold prepare_spacing specVec at *
    injection h with h
    exact ⟨h.symm, fun B' => rfl⟩
  | some ss =>
    cases ss with
    | scalar s' =>
      unfold prepare_spacing specVec at *
      injection h with h
      exact ⟨h.symm, fun B' => rfl⟩
    | vec v =>
      unfold prepare_spacing specVec at *
      dsimp only at h ⊢
      by_cases hv : v.length = d
      · rw [if_pos hv] at h
        injection h with h
        exact ⟨h.symm, fun B' => by rw [if_pos hv]⟩
      · rw [if_neg hv] at h
        cases h
    | perItem ls =>
      unfold spacingUniform at hu
      exact hu.elim

lemma getD_replicate {α : Type} {v d : α} {n b : ℕ} (hb : b < n) :
    (List.replicate n v).getD b d = v := by
  rw [List.getD_eq_getElem _ _ (by simpa using hb)]
  simp

lemma img_bcat_left {t u : Tensor4} {b c : ℕ} (hb : b < t.B) :
    (t.bcat u).img b c = t.img b c := by
  unfold Tensor4.img Tensor4.bcat
  rw [Img.mk.injEq]
  refine ⟨rfl, rfl, ?_⟩
  funext i j
  dsimp only
  rw [if_pos hb]

lemma img_bcat_right {t u : Tensor4} (hH : u.H = t.H) (hW : u.W = t.W) {k c : ℕ} :
    (t.bcat u).img (t.B + k) c = u.img k c := by
  unfold Tensor4.img Tensor4.bcat
  rw [Img.mk.injEq]
  refine ⟨hH.symm, hW.symm, ?_⟩
  funext i j
  dsimp only
  rw [if_neg (by omega), Nat.add_sub_cancel_left]

lemma nsdRows_bcat {O : SurfOracle} {v : List ℚ} {t u p q : Tensor4} {cls : List ℚ}
    (hpB : p.B = t.B) (huC : u.C = t.C) (huH : u.H = t.H) (huW : u.W = t.W)
    (hqH : q.H = p.H) (hqW : q.W = p.W) :
    nsdRows O (List.replicate (t.B + u.B) v) (t.bcat u) (p.bcat q) cls =
      nsdRows O (List.replicate t.B v) t p cls ++
        nsdRows O (List.replicate u.B v) u q cls := by
  unfold nsdRows
  show (List.range (t.B + u.B)).map _ = _
  rw [List.range_add, List.map_append, List.map_map]
  congr 1
  · apply List.map_congr_left
    intro b hb
    rw [List.mem_range] at hb
    apply List.map_congr_left
    intro c hc
    rw [getD_replicate (by omega), getD_replicate hb, img_bcat_left hb,
      img_bcat_left (by omega)]
  · apply List.map_congr_left
    intro k hk
    rw [List.mem_range] at hk
    show (List.range (t.bcat u).C).map
        (fun c => nsd_bc O ((List.replicate (t.B + u.B) v).getD (t.B + k) [])
          (cls.getD c 0) ((t.bcat u).img (t.B + k) c) ((p.bcat q).img (t.B + k) c)) = _
    have hCC : (t.bcat u).C = u.C := huC.symm
    rw [hCC]
    apply List.map_congr_left
    intro c hc
    rw [getD_replicate (by omega), getD_replicate hk, img_bcat_right huH huW]
    rw [show t.B + k = p.B + k by omega, img_bcat_right hqH hqW]

lemma compute_bcat {O : SurfOracle} {p1 y1 p2 y2 : Tensor4} {cls : List ℚ}
    {ib : Bool} {sp : Option SpacingSpec} {r1 r2 : NSDMat}
    (hu : spacingUniform sp)
    (h1 : compute_surface_dice O p1 y1 cls ib sp = .ok r1)
    (h2 : compute_surface_dice O p2 y2 cls ib sp = .ok r2)
    (hC : p2.C = p1.C) (hH : p2.H = p1.H) (hW : p2.W = p1.W) :
    compute_surface_dice O (p1.bcat p2) (y1.bcat y2) cls ib sp = .ok (r1 ++ r2) := by
  obtain ⟨⟨hs1, hb1, hg1, hc1, hn1⟩, spl1, hspl1, hr1⟩ := compute_ok_iff.mp h1
  obtain ⟨⟨hs2, hb2, hg2, hc2, hn2⟩, spl2, hspl2, hr2⟩ := compute_ok_iff.mp h2
  obtain ⟨hv1, hall⟩ := prepare_spacing_uniform hu hspl1
  obtain ⟨hv2, -⟩ := prepare_spacing_uniform hu hspl2
  obtain ⟨hsB1, hsC1, hsH1, hsW1⟩ := shape_eq_iff.mp hs1
  obtain ⟨hsB2, hsC2, hsH2, hsW2⟩ := shape_eq_iff.mp hs2
  have hC' : (postFilter ib p2).C = (postFilter ib p1).C := postFilter_C_congr hC
  have hH' : (postFilter ib p2).H = (postFilter ib p1).H := by
    rw [postFilter_H, postFilter_H, hH]
  have hW' : (postFilter ib p2).W = (postFilter ib p1).W := by
    rw [postFilter_W, postFilter_W, hW]
  have hYC : (postFilter ib y2).C = (postFilter ib y1).C := by
    rw [← hsC2, ← hsC1]
    exact hC'
  have hYH : (postFilter ib y2).H = (postFilter ib y1).H := by
    rw [← hsH2, ← hsH1]
    exact hH'
  have hYW : (postFilter ib y2).W = (postFilter ib y1).W := by
    rw [← hsW2, ← hsW1]
    exact hW'
  apply compute_ok_iff.mpr
  rw [postFilter_bcat, postFilter_bcat]
  refine ⟨⟨?_, ?_, ?_, ?_, hn1⟩, ?_⟩
  · apply shape_eq_iff.mpr
    refine ⟨?_, ?_, ?_, ?_⟩ <;> (show _ = _; unfold Tensor4.bcat; dsimp only)
    · omega
    · exact hsC1
    · exact hsH1
    · exact hsW1
  · exact ⟨(binarized_bcat hC' hH' hW').mpr ⟨hb1.1, hb2.1⟩,
      (binarized_bcat hYC hYH hYW).mpr ⟨hb1.2, hb2.2⟩⟩
  · rintro (hg | hg)
    · rcases (hasGtOne_bcat hC' hH' hW').mp hg with hx | hx
      · exact hg1 (Or.inl hx)
      · exact hg2 (Or.inl hx)
    · rcases (hasGtOne_bcat hYC hYH hYW).mp hg with hx | hx
      · exact hg1 (Or.inr hx)
      · exact hg2 (Or.inr hx)
  · exact hc1
  · refine ⟨List.replicate ((postFilter ib p1).B + (postFilter ib p2).B) (specVec sp 2),
      hall ((postFilter ib p1).B + (postFilter ib p2).B), ?_⟩
    rw [nsdRows_bcat hsB1.symm hC' hH' hW' hYH hYW, hr1, hr2, hv1, hv2]

/-- C6: starting from a fresh metric, two `update` calls with batches of
sizes m and n followed by `aggregate` with reduction `none` yield the
(m+n)×C matrix that a single `update` on the concatenated batch yields, the
first call's rows first. -/
theorem C6_accumulate_concat (m0 : SurfaceDiceMetric) (E : ReduceEngine)
    (p1 y1 p2 y2 : Tensor4) (sp : Option SpacingSpec) (r1 r2 : NSDMat)
    (hbuf : m0.buffer = [])
    (hu : spacingUniform sp)
    (h1 : compute_surface_dice m0.distance_oracle p1 y1 m0.class_thresholds
      m0.include_background sp = .ok r1)
    (h2 : compute_surface_dice m0.distance_oracle p2 y2 m0.class_thresholds
      m0.include_background sp = .ok r2)
    (hC : p2.C = p1.C) (hH : p2.H = p1.H) (hW : p2.W = p1.W) :
    (((m0.update p1 y1 sp).2.update p2 y2 sp).2.aggregate E
        (some MetricReduction.none)).map Prod.fst = .ok (r1 ++ r2) ∧
    ((m0.update (p1.bcat p2) (y1.bcat y2) sp).2.aggregate E
        (some MetricReduction.none)).map Prod.fst = .ok (r1 ++ r2) := by
  have hcat := compute_bcat hu h1 h2 hC hH hW
  constructor
  · unfold SurfaceDiceMetric.update
    rw [h1]
    dsimp only
    rw [h2]
    dsimp only
    unfold SurfaceDiceMetric.aggregate SurfaceDiceMetric.get_buffer
    rw [hbuf]
    simp [Except.map, E.reduce_none]
  · unfold SurfaceDiceMetric.update
    rw [hcat]
    dsimp only
    unfold SurfaceDiceMetric.aggregate SurfaceDiceMetric.get_buffer
    rw [hbuf]
    simp [Except.map, E.reduce_none]

/-- C7: `aggregate` with an empty Accumulation Buffer — in particular right
after `reset` — fails with the empty-buffer error, and it succeeds exactly
when the buffer is non-empty. -/
theorem C7_aggregate_requires_nonempty (m : SurfaceDiceMetric) (E : ReduceEngine)
    (r : Option MetricReduction) :
    (m.reset.aggregate E r = .error AggError.EmptyBuffer) ∧
    (m.buffer = [] → m.aggregate E r = .error AggError.EmptyBuffer) ∧
    ((∃ out, m.aggregate E r = .ok out) ↔ m.buffer ≠ []) := by
  have hempty : ∀ m' : SurfaceDiceMetric, m'.buffer = [] →
      m'.aggregate E r = .error AggError.EmptyBuffer := by
    intro m' h
    unfold SurfaceDiceMetric.aggregate SurfaceDiceMetric.get_buffer
    rw [h]
  refine ⟨hempty m.reset rfl, hempty m, ?_, ?_⟩
  · rintro ⟨out, hout⟩ hnil
    rw [hempty m hnil] at hout
    cases hout
  · intro hne
    unfold SurfaceDiceMetric.aggregate SurfaceDiceMetric.get_buffer
    cases hb : m.buffer with
    | nil => exact absurd hb hne
    | cons x xs => exact ⟨_, rfl⟩

/-- C8: an `update` whose compute fails leaves the Accumulation Buffer — the
whole metric state — exactly as it was, and a subsequent `aggregate` behaves
as if the failed update had never happened. -/
theorem C8_failed_update_atomic (m : SurfaceDiceMetric) (yp y : Tensor4)
    (sp : Option SpacingSpec) (e : SDError) (E : ReduceEngine)
    (r : Option MetricReduction)
    (hfail : (m.update yp y sp).1 = .error e) :
    (m.update yp y sp).2 = m ∧
    (m.update yp y sp).2.aggregate E r = m.aggregate E r := by
  unfold SurfaceDiceMetric.update at hfail ⊢
  cases hc : compute_surface_dice m.distance_oracle yp y m.class_thresholds
      m.include_background sp with
  | error e' => exact ⟨rfl, rfl⟩
  | ok v =>
    rw [hc] at hfail
    cases hfail

/-- Witness for C6: updating twice with the end-to-end example and
aggregating with reduction `none` equals the concatenated single call. -/
theorem C6_witness :
    (((exMetric.update exPred exRef Option.none).2.update exPred exRef
        Option.none).2.aggregate idEngine (some MetricReduction.none)).map Prod.fst =
      .ok (exResHalf ++ exResHalf) :=
  (C6_accumulate_concat exMetric idEngine exPred exRef exPred exRef Option.none
    exResHalf exResHalf rfl trivial rfl rfl rfl rfl rfl).1

/-- Witness for C7: aggregating the freshly constructed metric fails with the
empty-buffer error. -/
theorem C7_witness :
    exMetric.aggregate idEngine Option.none = .error AggError.EmptyBuffer :=
  (C7_aggregate_requires_nonempty exMetric idEngine Option.none).2.1 rfl

/-- Witness for C8: an update with shape-mismatched tensors fails and leaves
the metric unchanged. -/
theorem C8_witness : (exMetric.update exOne exWide Option.none).2 = exMetric :=
  (C8_failed_update_atomic exMetric exOne exWide Option.none SDError.ShapeMismatch
    idEngine Option.none (by decide)).1

end SurfaceDice
